import Mathlib

/-!
Verification of `avocado/utils/process.py` against its specification.

The module is shallowly embedded: pure fragments become Lean functions,
the stateful wait protocol becomes explicit state passing over an abstract
child-process oracle, Python exceptions become `Except`, and the byte
strings flowing through the stream drainers become lists of characters.
-/

namespace Avocado

/-- Python 2 byte strings, as read from the child's pipes. -/
abbrev Bytes := List Char

/-! ## find_command (process.py lines 53-74) -/

/-- Exceptions that the environment lookup machinery can involve:
`os.environ['PATH']` raises a `KeyError` when the variable is absent, while
the handler at line 65 of the source names `IndexError`. -/
inductive EnvErr
  | keyError
  | indexError
  deriving DecidableEq

/-- `os.environ['PATH']`: the environment is modelled as the optional value
of the `PATH` variable; a missing variable raises `KeyError`. -/
def environGet (pathVar : Option String) : Except EnvErr String :=
  match pathVar with
  | some v => Except.ok v
  | none => Except.error EnvErr.keyError

/-- Errors escaping `find_command`: a propagated environment-lookup error, or
`CmdNotFoundError(cmd, paths)` (source lines 34-50). -/
inductive FindErr
  | envError (e : EnvErr)
  | cmdNotFound (cmd : String) (paths : List String)
  deriving DecidableEq

/-- The fixed list of standard system directories (source lines 61-62). -/
def common_bin_paths : List String :=
  ["/usr/libexec", "/usr/local/sbin", "/usr/local/bin",
   "/usr/sbin", "/usr/bin", "/sbin", "/bin"]

/-- Order-preserving deduplication, keeping first occurrences; `seen` holds
the elements already emitted. -/
def uniqueAux {α : Type} [DecidableEq α] (seen : List α) : List α → List α
  | [] => []
  | x :: xs => if x ∈ seen then uniqueAux seen xs else x :: uniqueAux (x :: seen) xs

/-- Modelled from the spec: `misc.unique` (from `avocado.utils.misc`, which is
not under src/) deduplicates the combined directory list, "deduplicated,
order preserved". -/
def unique {α : Type} [DecidableEq α] (l : List α) : List α := uniqueAux [] l

/-- `os.path.join(dir, cmd)` for the POSIX flavour used by the source: an
absolute second component wins, otherwise a single separator is inserted. -/
def joinPath (dir cmd : String) : String :=
  if cmd.startsWith "/" then cmd
  else if dir.endsWith "/" || dir = "" then dir ++ cmd
  else dir ++ "/" ++ cmd

/-- The deduplicated search list `path_paths` built at source line 67 from the
standard directories and the split `PATH` value. -/
def searchDirs (pathVal : String) : List String :=
  unique (common_bin_paths ++ pathVal.splitOn ":")

/-- `find_command` (source lines 53-74).  The filesystem enters as the
`isFile` predicate (`os.path.isfile`) and `abspath` models `os.path.abspath`
(whose result depends on the ambient working directory).  The `try` block
around the environment lookup catches only `IndexError` (source line 65),
so the `KeyError` actually raised by a missing `PATH` propagates. -/
def find_command (pathVar : Option String) (isFile : String → Bool)
    (abspath : String → String) (cmd : String) : Except FindErr String :=
  match (match environGet pathVar with
         | Except.ok v => Except.ok (v.splitOn ":")
         | Except.error e =>
           if e = EnvErr.indexError then Except.ok ([] : List String)
           else Except.error e) with
  | Except.error e => Except.error (FindErr.envError e)
  | Except.ok pathList =>
    let path_paths := unique (common_bin_paths ++ pathList)
    match path_paths.find? (fun d => isFile (joinPath d cmd)) with
    | some d => Except.ok (abspath (joinPath d cmd))
    | none => Except.error (FindErr.cmdNotFound cmd path_paths)

theorem mem_uniqueAux {α : Type} [DecidableEq α] (l : List α) :
    ∀ (seen : List α) (x : α), x ∈ uniqueAux seen l ↔ x ∈ l ∧ x ∉ seen := by
  induction l with
  | nil => intro seen x; simp [uniqueAux]
  | cons a l ih =>
    intro seen x
    by_cases ha : a ∈ seen
    · rw [uniqueAux, if_pos ha, ih]
      constructor
      · rintro ⟨hx, hs⟩; exact ⟨List.mem_cons_of_mem _ hx, hs⟩
      · rintro ⟨hx, hs⟩
        rcases List.mem_cons.mp hx with rfl | hx
        · exact absurd ha hs
        · exact ⟨hx, hs⟩
    · rw [uniqueAux, if_neg ha]
      constructor
      · intro hx
        rcases List.mem_cons.mp hx with rfl | hx
        · exact ⟨List.mem_cons_self _ _, ha⟩
        · rcases (ih _ _).mp hx with ⟨h1, h2⟩
          refine ⟨List.mem_cons_of_mem _ h1, fun hc => h2 (List.mem_cons_of_mem _ hc)⟩
      · rintro ⟨hx, hs⟩
        rcases List.mem_cons.mp hx with rfl | hx
        · exact List.mem_cons_self _ _
        · by_cases hxa : x = a
          · subst hxa; exact List.mem_cons_self _ _
          · refine List.mem_cons_of_mem _ ((ih _ _).mpr ⟨hx, ?_⟩)
            intro hc
            rcases List.mem_cons.mp hc with h | h
            · exact hxa h
            · exact hs h

theorem nodup_uniqueAux {α : Type} [DecidableEq α] (l : List α) :
    ∀ seen : List α, (uniqueAux seen l).Nodup := by
  induction l with
  | nil => intro seen; simp [uniqueAux]
  | cons a l ih =>
    intro seen
    by_cases ha : a ∈ seen
    · rw [uniqueAux, if_pos ha]; exact ih seen
    · rw [uniqueAux, if_neg ha]
      refine List.nodup_cons.mpr ⟨?_, ih (a :: seen)⟩
      intro hc
      exact ((mem_uniqueAux l (a :: seen) a).mp hc).2 (List.mem_cons_self _ _)

theorem sublist_uniqueAux {α : Type} [DecidableEq α] (l : List α) :
    ∀ seen : List α, (uniqueAux seen l).Sublist l := by
  induction l with
  | nil => intro seen; simp [uniqueAux]
  | cons a l ih =>
    intro seen
    by_cases ha : a ∈ seen
    · rw [uniqueAux, if_pos ha]
      exact List.Sublist.trans (ih seen) (List.sublist_cons_self a l)
    · rw [uniqueAux, if_neg ha]
      exact List.Sublist.cons₂ a (ih (a :: seen))

/-- `List.find?` returns the first element satisfying the predicate: there is
an index whose earlier positions all fail the predicate. -/
theorem find_first {α : Type} (p : α → Bool) :
    ∀ (l : List α) (a : α), l.find? p = some a →
      ∃ i : Nat, ∃ h : i < l.length, l.get ⟨i, h⟩ = a ∧ p a = true ∧
        ∀ j, (hj : j < l.length) → j < i → p (l.get ⟨j, hj⟩) = false := by
  intro l
  induction l with
  | nil => intro a h; simp [List.find?] at h
  | cons x xs ih =>
    intro a h
    cases hp : p x with
    | true =>
      simp only [List.find?, hp] at h
      have hxa : x = a := by injection h
      subst hxa
      refine ⟨0, by simp, rfl, hp, ?_⟩
      intro j hj hj0; omega
    | false =>
      simp only [List.find?, hp] at h
      rcases ih a h with ⟨i, hi, hget, hpa, hbefore⟩
      refine ⟨i + 1, by simp; omega, hget, hpa, ?_⟩
      intro j hj hji
      match j with
      | 0 => exact hp
      | Nat.succ j' =>
        exact hbefore j' (by simp at hj; omega) (by omega)

/-- C5: `find_command` searches the standard directories followed by the
`PATH` directories, deduplicated with order preserved; it returns the
absolute path built from the first directory holding a matching regular
file, and otherwise raises `CmdNotFoundError` carrying the command name and
the full (deduplicated) search list. -/
theorem find_command_spec (pathVal : String) (isFile : String → Bool)
    (abspath : String → String) (cmd : String) :
    (searchDirs pathVal).Nodup ∧
    (∀ x, x ∈ searchDirs pathVal ↔ x ∈ common_bin_paths ++ pathVal.splitOn ":") ∧
    (searchDirs pathVal).Sublist (common_bin_paths ++ pathVal.splitOn ":") ∧
    (∀ r, find_command (some pathVal) isFile abspath cmd = Except.ok r →
      ∃ i : Nat, ∃ h : i < (searchDirs pathVal).length,
        isFile (joinPath ((searchDirs pathVal).get ⟨i, h⟩) cmd) = true ∧
        (∀ j, (hj : j < (searchDirs pathVal).length) → j < i →
          isFile (joinPath ((searchDirs pathVal).get ⟨j, hj⟩) cmd) = false) ∧
        r = abspath (joinPath ((searchDirs pathVal).get ⟨i, h⟩) cmd)) ∧
    ((∀ d ∈ searchDirs pathVal, isFile (joinPath d cmd) = false) →
      find_command (some pathVal) isFile abspath cmd =
        Except.error (FindErr.cmdNotFound cmd (searchDirs pathVal))) := by
  refine ⟨nodup_uniqueAux _ [], ?_, sublist_uniqueAux _ [], ?_, ?_⟩
  · intro x; rw [searchDirs, unique, mem_uniqueAux]; simp
  · intro r hr
    simp only [find_command, environGet] at hr
    rcases hfind : (unique (common_bin_paths ++ pathVal.splitOn ":")).find?
        (fun d => isFile (joinPath d cmd)) with _ | d
    · rw [hfind] at hr; simp at hr
    · rw [hfind] at hr
      injection hr with hr
      rcases find_first _ _ _ hfind with ⟨i, hi, hget, hpa, hbefore⟩
      refine ⟨i, hi, ?_, ?_, ?_⟩
      · show isFile (joinPath ((unique (common_bin_paths ++ pathVal.splitOn ":")).get ⟨i, hi⟩)
            cmd) = true
        rw [hget]; exact hpa
      · intro j hj hji
        exact hbefore j hj hji
      · show r = abspath (joinPath
            ((unique (common_bin_paths ++ pathVal.splitOn ":")).get ⟨i, hi⟩) cmd)
        rw [hget]; exact hr.symm
  · intro hall
    have hnone : (unique (common_bin_paths ++ pathVal.splitOn ":")).find?
        (fun d => isFile (joinPath d cmd)) = none := by
      rw [List.find?_eq_none]
      intro d hd
      simp [hall d hd]
    simp only [find_command, environGet]
    rw [hnone]
    rfl

/-- Witness for C5: scenario E at concrete inputs — a filesystem with no
matching file makes `find_command` raise `CmdNotFoundError` listing the
searched directories. -/
theorem find_command_spec_witness :
    (∀ d ∈ searchDirs "/bin", (fun _ => false) (joinPath d "demo-missing") = false) ∧
    find_command (some "/bin") (fun _ => false) (fun p => p) "demo-missing" =
      Except.error (FindErr.cmdNotFound "demo-missing" (searchDirs "/bin")) :=
  ⟨fun _ _ => rfl,
   (find_command_spec "/bin" (fun _ => false) (fun p => p) "demo-missing").2.2.2.2
     (fun _ _ => rfl)⟩

/-- C10: when `PATH` is absent the environment lookup raises `KeyError`, the
handler at source line 65 catches only `IndexError`, so the error propagates
before any directory is searched — the outcome does not depend on the
filesystem at all. -/
theorem find_command_no_path_propagates (isFile : String → Bool)
    (abspath : String → String) (cmd : String) :
    find_command none isFile abspath cmd = Except.error (FindErr.envError EnvErr.keyError) ∧
    environGet none = Except.error EnvErr.keyError ∧
    EnvErr.keyError ≠ EnvErr.indexError :=
  ⟨rfl, rfl, by decide⟩

/-! ## The stream drainer (process.py lines 145-177) -/

/-- Python `str.splitlines()` restricted to newline separators, on byte
strings: `"a\nb\n"` gives `["a", "b"]`, a trailing fragment without a
newline is kept, and a trailing empty fragment is dropped.  `cur` is the
reversed fragment accumulated so far. -/
def splitlinesGo (cur : Bytes) : Bytes → List Bytes
  | [] => if cur = [] then [] else [cur.reverse]
  | ch :: rest =>
    if ch = '\n' then cur.reverse :: splitlinesGo [] rest
    else splitlinesGo (ch :: cur) rest

/-- `bfr.splitlines()` as used at source line 173. -/
def splitlines (s : Bytes) : List Bytes := splitlinesGo [] s

/-- `tmp.endswith('\n')` (source line 172). -/
def endsWithNl (tmp : Bytes) : Bool := decide (tmp.getLast? = some '\n')

/-- Concatenation of a list of byte chunks. -/
def joinB : List Bytes → Bytes
  | [] => []
  | c :: rest => c ++ joinB rest

/-- The state a drainer thread mutates: the captured-output file, the
line-oriented echo buffer `bfr`, and the lines already sent to the log
sink.  In the source the writes to `output_file` and the echo bookkeeping
happen while holding the stream's lock (source lines 167-177). -/
structure DrainSt where
  output_file : Bytes
  bfr : Bytes
  logged : List Bytes
  deriving DecidableEq

/-- One iteration of the `_fd_drainer` loop body on a non-empty chunk
`tmp` returned by `os.read(fileno, 1024)` (source lines 163-177): the chunk
is written to the output file; with `verbose` the chunk joins the echo
buffer, which is flushed to the log line by line only when the chunk itself
ends with a newline. -/
def drainStep (verbose : Bool) (st : DrainSt) (tmp : Bytes) : DrainSt :=
  let st1 : DrainSt := { st with output_file := st.output_file ++ tmp }
  if verbose then
    let bfr2 := st1.bfr ++ tmp
    if endsWithNl tmp then
      { st1 with bfr := [], logged := st1.logged ++ splitlines bfr2 }
    else
      { st1 with bfr := bfr2 }
  else st1

/-- `_fd_drainer` (source lines 145-177): `chunks` is the sequence of
non-empty reads the pipe delivers before end-of-stream; the empty read that
terminates the `while True` loop is the end of this list. -/
def fd_drainer (verbose : Bool) (chunks : List Bytes) : DrainSt :=
  chunks.foldl (drainStep verbose) ⟨[], [], []⟩

theorem drainStep_output (verbose : Bool) (st : DrainSt) (tmp : Bytes) :
    (drainStep verbose st tmp).output_file = st.output_file ++ tmp := by
  rw [drainStep]
  by_cases hv : verbose <;> by_cases he : endsWithNl tmp <;> simp [hv, he]

theorem foldl_drain_output (verbose : Bool) :
    ∀ (chunks : List Bytes) (st : DrainSt),
      (chunks.foldl (drainStep verbose) st).output_file = st.output_file ++ joinB chunks := by
  intro chunks
  induction chunks with
  | nil => intro st; simp [joinB]
  | cons c rest ih =>
    intro st
    rw [List.foldl_cons, ih, drainStep_output, joinB, List.append_assoc]

theorem drainStep_quiet (st : DrainSt) (tmp : Bytes) :
    (drainStep false st tmp).logged = st.logged ∧ (drainStep false st tmp).bfr = st.bfr := by
  rw [drainStep]; simp

theorem foldl_drain_quiet :
    ∀ (chunks : List Bytes) (st : DrainSt),
      (chunks.foldl (drainStep false) st).logged = st.logged := by
  intro chunks
  induction chunks with
  | nil => intro st; rfl
  | cons c rest ih =>
    intro st
    rw [List.foldl_cons, ih, (drainStep_quiet st c).1]

theorem splitlinesGo_append (u : Bytes) :
    ∀ (cur t : Bytes), u.getLast? = some '\n' →
      splitlinesGo cur (u ++ t) = splitlinesGo cur u ++ splitlinesGo [] t := by
  induction u with
  | nil => intro cur t hu; simp at hu
  | cons ch u ih =>
    intro cur t hu
    cases u with
    | nil =>
      simp at hu
      subst hu
      simp [splitlinesGo]
    | cons ch2 u2 =>
      have hu2 : (ch2 :: u2).getLast? = some '\n' := by
        rw [← hu]; rfl
      by_cases hch : ch = '\n'
      · subst hch
        rw [List.cons_append, splitlinesGo, if_pos rfl, splitlinesGo, if_pos rfl,
          ih [] t hu2, List.cons_append]
      · rw [List.cons_append, splitlinesGo, if_neg hch, splitlinesGo, if_neg hch,
          ih (ch :: cur) t hu2]

theorem foldl_drain_nl :
    ∀ (chunks : List Bytes) (st : DrainSt), st.bfr = [] →
      (∀ ck ∈ chunks, endsWithNl ck = true) →
      (chunks.foldl (drainStep true) st).logged = st.logged ++ splitlines (joinB chunks) ∧
      (chunks.foldl (drainStep true) st).bfr = [] := by
  intro chunks
  induction chunks with
  | nil => intro st hb _; simp [joinB, splitlines, splitlinesGo, hb]
  | cons c rest ih =>
    intro st hb hnl
    have hc : endsWithNl c = true := hnl c (List.mem_cons_self _ _)
    have hstep : drainStep true st c =
        ⟨st.output_file ++ c, [], st.logged ++ splitlines c⟩ := by
      rw [drainStep]
      simp [hc, hb, splitlines]
    rw [List.foldl_cons, hstep]
    rcases ih ⟨st.output_file ++ c, [], st.logged ++ splitlines c⟩ rfl
        (fun ck hck => hnl ck (List.mem_cons_of_mem _ hck)) with ⟨h1, h2⟩
    refine ⟨?_, h2⟩
    rw [h1]
    have hjoin : splitlines (joinB (c :: rest)) = splitlines c ++ splitlines (joinB rest) := by
      rw [joinB, splitlines, splitlines, splitlines,
        splitlinesGo_append c [] (joinB rest) (by simpa [endsWithNl] using hc)]
    rw [hjoin, List.append_assoc]

/-- C8 counterexample: the single chunk `"a\nb"` contains a newline, so the
claimed echo policy would flush the completed line `"a"` when that newline
is seen and echo the held fragment at end-of-stream; the code echoes
nothing (the flush condition at source line 172 looks only at the end of
the chunk, and a buffer still held when the stream ends is dropped). -/
theorem fd_drainer_echo_counterexample :
    (fd_drainer true [['a', '\n', 'b']]).logged = [] ∧
    '\n' ∈ (['a', '\n', 'b'] : Bytes) ∧
    (fd_drainer true [['a', '\n', 'b']]).bfr = ['a', '\n', 'b'] := by
  refine ⟨rfl, by decide, rfl⟩

/-- C8 amended: the drainer reads 1024-byte-bounded chunks, an empty read
ends the loop, and the captured output is exactly the concatenation of the
chunks; with verbose echoing the buffer is flushed as complete lines only
when a chunk ends with a newline — so when every chunk does, every captured
line is echoed exactly once — and without verbose nothing is echoed. -/
theorem fd_drainer_amended (verbose : Bool) (chunks : List Bytes)
    (hchunks : ∀ ck ∈ chunks, ck ≠ [] ∧ ck.length ≤ 1024) :
    (fd_drainer verbose chunks).output_file = joinB chunks ∧
    (verbose = false → (fd_drainer verbose chunks).logged = []) ∧
    (verbose = true → (∀ ck ∈ chunks, endsWithNl ck = true) →
      (fd_drainer verbose chunks).logged = splitlines (joinB chunks)) := by
  refine ⟨?_, ?_, ?_⟩
  · rw [fd_drainer, foldl_drain_output]; rfl
  · intro hv; subst hv; rw [fd_drainer, foldl_drain_quiet]
  · intro hv hnl; subst hv
    rw [fd_drainer, (foldl_drain_nl chunks ⟨[], [], []⟩ rfl hnl).1]
    rfl

/-- Witness for C8 amended, at the chunk list `["hi\n"]` with verbose on. -/
theorem fd_drainer_amended_witness :
    (∀ ck ∈ [(['h', 'i', '\n'] : Bytes)], ck ≠ [] ∧ ck.length ≤ 1024) ∧
    (fd_drainer true [['h', 'i', '\n']]).output_file = joinB [['h', 'i', '\n']] ∧
    ((∀ ck ∈ [(['h', 'i', '\n'] : Bytes)], endsWithNl ck = true) →
      (fd_drainer true [['h', 'i', '\n']]).logged = splitlines (joinB [['h', 'i', '\n']])) :=
  ⟨by decide,
   (fd_drainer_amended true [['h', 'i', '\n']] (by decide)).1,
   (fd_drainer_amended true [['h', 'i', '\n']] (by decide)).2.2 rfl⟩

/-! ## CmdResult and the wait protocol (process.py lines 77-103, 203-284) -/

/-- `CmdResult` (source lines 77-95). -/
structure CmdResult where
  command : String
  exit_status : Option Int
  stdout : Bytes
  stderr : Bytes
  duration : Nat
  deriving DecidableEq

/-- The value `CmdResult(cmd)` built in `SubProcess.__init__` (source line
129): only the command is set; the other fields keep the constructor
defaults (`stdout=""`, `stderr=""`, `exit_status=None`, `duration=0`). -/
def CmdResult.init (cmd : String) : CmdResult :=
  ⟨cmd, none, [], [], 0⟩

/-- The events the wait protocol can direct at the child process, in order:
`poll` is a non-blocking `self.sp.poll()` recording the status it returned,
`blockWait` is the blocking `self.sp.wait()`, `term` is `self.terminate()`
and `kill` is `self.kill()`. -/
inductive Ev
  | poll (r : Option Int)
  | blockWait (r : Int)
  | term
  | kill
  deriving DecidableEq

/-- `true` exactly on `poll` events. -/
def Ev.isPoll : Ev → Bool
  | Ev.poll _ => true
  | _ => false

/-- The child process, abstracted as an oracle: `pollR` answers a
non-blocking poll given the events so far, `waitR` is the return code a
blocking `wait()` eventually delivers (the model assumes the child exits in
that case — otherwise the source's `wait(None)` never returns at all), and
`waitTicks` is the wall-clock cost of that blocking wait. -/
structure Child where
  pollR : List Ev → Option Int
  waitR : Int
  waitTicks : Nat

/-- One bounded polling loop of `SubProcess.wait` (the deadline loop at
source lines 237-241 and the grace loop at lines 249-253 have the same
body: poll, record the status, break when it is set).  Time is discrete:
each iteration costs one tick, and `fuel` is the number of ticks until the
loop's deadline.  Returns the extended event history, the final value of
`self.result.exit_status`, and the clock. -/
def pollLoop (c : Child) : Nat → List Ev → Nat → List Ev × Option Int × Nat
  | 0, hist, clk => (hist, none, clk)
  | Nat.succ fuel, hist, clk =>
    match c.pollR hist with
    | some s => (hist ++ [Ev.poll (some s)], some s, clk + 1)
    | none => pollLoop c fuel (hist ++ [Ev.poll none]) (clk + 1)

/-- The escalation block of `SubProcess.wait` (source lines 246-256),
entered when `self.result.exit_status is None`: `terminate()`, then the
grace polling loop until `stop_time`; the `while`-`else` fires exactly when
no poll delivered a status, and then `kill()` is followed by one final
poll. -/
def escalate (c : Child) (hist : List Ev) (grace : Nat) (clk : Nat) :
    List Ev × Option Int × Nat :=
  let hist1 := hist ++ [Ev.term]
  let p := pollLoop c grace hist1 clk
  match p.2.1 with
  | some s => (p.1, some s, p.2.2)
  | none =>
    let hist3 := p.1 ++ [Ev.kill]
    let r := c.pollR hist3
    (hist3 ++ [Ev.poll r], r, p.2.2)

/-- The value of the `timeout` variable at the escalation point (source
lines 236-249): the original argument when it is a positive number, and 1
otherwise — the `else: timeout = 1` at line 244 runs both for `None`
(Python 2 evaluates `None > 0` to `False`) and for values `≤ 0`. -/
def graceWindow : Option Int → Int
  | none => 1
  | some t => if 0 < t then t else 1

/-- The outcome of the wait protocol before cleanup. -/
structure WaitTrace where
  hist : List Ev
  exit_status : Option Int
  clock : Nat
  deriving DecidableEq

/-- `SubProcess.wait` up to the point where the result fields are written
(source lines 232-256).  With `timeout=None` the blocking wait records the
return code, which is always set afterwards, so the escalation branch
(guarded by `exit_status is None`) is skipped.  With a positive timeout the
deadline loop runs first; otherwise the loop is skipped (`exit_status`
still `None` from construction) and escalation starts at once. -/
def waitProto (c : Child) (timeout : Option Int) : WaitTrace :=
  match timeout with
  | none => ⟨[Ev.blockWait c.waitR], some c.waitR, c.waitTicks⟩
  | some t =>
    if 0 < t then
      let p := pollLoop c t.toNat [] 0
      match p.2.1 with
      | some s => ⟨p.1, some s, p.2.2⟩
      | none =>
        let q := escalate c p.1 (graceWindow (some t)).toNat p.2.2
        ⟨q.1, q.2.1, q.2.2⟩
    else
      let q := escalate c [] (graceWindow (some t)).toNat 0
      ⟨q.1, q.2.1, q.2.2⟩

/-- The state of the two drainer threads and stream buffers as `cleanup`
observes them: whether each thread is still alive after the bounded
`join(1)`, and the buffer contents returned by `get_stdout`/`get_stderr`. -/
structure Drainers where
  stdout_alive : Bool
  stderr_alive : Bool
  stdout_content : Bytes
  stderr_content : Bytes
  deriving DecidableEq

/-- `SubProcess.cleanup` (source lines 265-284): join both drainers with a
bounded wait, then the three `assert` statements — a failure aborts with
`AssertionError` carrying the message — and finally the pipes are closed
and `result.stdout`/`result.stderr` are written from the buffers. -/
def SubProcess.cleanup (d : Drainers) (result : CmdResult) : Except String CmdResult :=
  if d.stdout_alive then Except.error "Stdout thread is still alive"
  else if d.stderr_alive then Except.error "Stderr thread is still alive"
  else if result.exit_status = none then Except.error "Zombie Process"
  else Except.ok { result with stdout := d.stdout_content, stderr := d.stderr_content }

/-- `SubProcess.wait` in full (source lines 221-263): run the wait
protocol, write `exit_status` and `duration` into the result constructed at
`__init__`, call `cleanup`, and return the result.  Also returns the event
history for the temporal claims. -/
def SubProcess.wait (c : Child) (d : Drainers) (cmd : String) (timeout : Option Int) :
    Except String CmdResult × List Ev :=
  let tr := waitProto c timeout
  let result := { CmdResult.init cmd with exit_status := tr.exit_status, duration := tr.clock }
  (SubProcess.cleanup d result, tr.hist)

/-- The outcome of the lone `os.kill` call inside `terminate`/`kill`
(source lines 208, 217): delivered, or an exception such as the `OSError`
raised when the process id no longer exists. -/
inductive SigOutcome
  | delivered
  | raised (err : String)
  deriving DecidableEq

/-- The observable state of the process handle around a signal call. -/
structure Handle where
  pid : Int
  result : CmdResult
  deriving DecidableEq

/-- `SubProcess.terminate` (source lines 203-210): `os.kill(pid, SIGTERM)`
inside `try`/bare `except: pass` — every delivery error is swallowed.
Returns the handle state and the exception escaping the call (`none`
meaning it returns normally). -/
def SubProcess.terminate (osKill : SigOutcome) (h : Handle) : Handle × Option String :=
  match osKill with
  | SigOutcome.delivered => (h, none)
  | SigOutcome.raised _ => (h, none)

/-- `SubProcess.kill` (source lines 212-219): `os.kill(pid, SIGKILL)` under
the same bare `except: pass`. -/
def SubProcess.kill (osKill : SigOutcome) (h : Handle) : Handle × Option String :=
  match osKill with
  | SigOutcome.delivered => (h, none)
  | SigOutcome.raised _ => (h, none)

/-! ## run / system / system_output (process.py lines 287-359) -/

/-- Errors escaping `run`: `CmdError` is modelled from the spec
(`avocado.core.exceptions` is not under src/) as the command-execution
failure "carrying the full CommandResult"; the call site at source line 309
passes the command line and the result object.  An `AssertionError` from
`cleanup` propagates unchanged. -/
inductive RunErr
  | cmdError (cmd : String) (result : CmdResult)
  | assertionError (msg : String)
  deriving DecidableEq

/-- `run` (source lines 287-310): spawn, wait, and raise `CmdError` when
the exit status differs from 0 and `ignore_status` is false; `verbose` only
selects the logging modelled in `fd_drainer`. -/
def run (c : Child) (d : Drainers) (cmd : String) (timeout : Option Int)
    (verbose : Bool) (ignore_status : Bool) : Except RunErr CmdResult :=
  match (SubProcess.wait c d cmd timeout).1 with
  | Except.error m => Except.error (RunErr.assertionError m)
  | Except.ok cmd_result =>
    if cmd_result.exit_status ≠ some 0 ∧ ignore_status = false then
      Except.error (RunErr.cmdError cmd cmd_result)
    else Except.ok cmd_result

/-- `system` (source lines 313-335): run and return the exit status. -/
def system (c : Child) (d : Drainers) (cmd : String) (timeout : Option Int)
    (verbose : Bool) (ignore_status : Bool) : Except RunErr (Option Int) :=
  match run c d cmd timeout verbose ignore_status with
  | Except.error e => Except.error e
  | Except.ok r => Except.ok r.exit_status

/-- `system_output` (source lines 338-359): run and return the stdout. -/
def system_output (c : Child) (d : Drainers) (cmd : String) (timeout : Option Int)
    (verbose : Bool) (ignore_status : Bool) : Except RunErr Bytes :=
  match run c d cmd timeout verbose ignore_status with
  | Except.error e => Except.error e
  | Except.ok r => Except.ok r.stdout

/-! ## Concrete fixtures used by witnesses and counterexamples -/

/-- A child that exits immediately with status 0. -/
def childExit0 : Child := ⟨fun _ => some 0, 0, 1⟩

/-- A child that exits immediately with status 1 (like `"false"`). -/
def childExit1 : Child := ⟨fun _ => some 1, 1, 1⟩

/-- A child that never reports an exit status, surviving even `kill`. -/
def childNever : Child := ⟨fun _ => none, 0, 1⟩

/-- Quiescent drainers with empty captures. -/
def drainersDone : Drainers := ⟨false, false, [], []⟩

/-- Drainers whose stdout thread outlived the bounded join. -/
def drainersStuck : Drainers := ⟨true, false, [], []⟩

/-- Quiescent drainers that captured `"hi\n"` on stdout. -/
def drainersHi : Drainers := ⟨false, false, ['h', 'i', '\n'], []⟩

/-! ## Theorems about terminate/kill, cleanup and the facades -/

/-- `true` exactly on `Except.ok`. -/
def isOkE {ε α : Type} : Except ε α → Bool
  | Except.ok _ => true
  | Except.error _ => false

/-- C7: `terminate()` and `kill()` never raise — the bare `except: pass`
swallows every delivery error, including the one raised when the process
already exited — and leave the handle's observable state unchanged. -/
theorem terminate_kill_noop (osKill : SigOutcome) (h : Handle) :
    SubProcess.terminate osKill h = (h, none) ∧ SubProcess.kill osKill h = (h, none) := by
  cases osKill <;> exact ⟨rfl, rfl⟩

/-- C4: `cleanup` aborts with an assertion failure — never returning a
result — whenever a drainer thread survived the bounded join or the exit
status is still unset; consequently any `CmdResult` that `wait` does return
has its exit status set. -/
theorem wait_no_unset_status :
    (∀ (d : Drainers) (res : CmdResult),
      d.stdout_alive = true ∨ d.stderr_alive = true ∨ res.exit_status = none →
      isOkE (SubProcess.cleanup d res) = false) ∧
    (∀ (c : Child) (d : Drainers) (cmd : String) (timeout : Option Int) (r : CmdResult),
      (SubProcess.wait c d cmd timeout).1 = Except.ok r → r.exit_status.isSome = true) := by
  constructor
  · intro d res h
    rw [SubProcess.cleanup]
    rcases h with h | h | h
    · rw [if_pos h]; rfl
    · by_cases h1 : d.stdout_alive
      · rw [if_pos h1]; rfl
      · rw [if_neg h1, if_pos h]; rfl
    · by_cases h1 : d.stdout_alive
      · rw [if_pos h1]; rfl
      · by_cases h2 : d.stderr_alive
        · rw [if_neg h1, if_pos h2]; rfl
        · rw [if_neg h1, if_neg h2, if_pos h]; rfl
  · intro c d cmd timeout r h
    simp only [SubProcess.wait, SubProcess.cleanup] at h
    split_ifs at h with h1 h2 h3
    injection h with h
    rw [← h]
    show (waitProto c timeout).exit_status.isSome = true
    rcases ho : (waitProto c timeout).exit_status with _ | s
    · exact absurd ho h3
    · rfl

/-- Witness for C4: a still-alive stdout drainer makes `cleanup` abort, and
a concrete completed run yields a result with the exit status set. -/
theorem wait_no_unset_status_witness :
    ((drainersStuck.stdout_alive = true ∨ drainersStuck.stderr_alive = true ∨
        (CmdResult.init "w4").exit_status = none) ∧
      isOkE (SubProcess.cleanup drainersStuck (CmdResult.init "w4")) = false) ∧
    ((SubProcess.wait childExit0 drainersDone "w4" (some 5)).1 =
        Except.ok ⟨"w4", some 0, [], [], 1⟩ ∧
      (⟨"w4", some 0, [], [], 1⟩ : CmdResult).exit_status.isSome = true) :=
  ⟨⟨Or.inl rfl, wait_no_unset_status.1 drainersStuck (CmdResult.init "w4") (Or.inl rfl)⟩,
   ⟨rfl, wait_no_unset_status.2 childExit0 drainersDone "w4" (some 5)
      ⟨"w4", some 0, [], [], 1⟩ rfl⟩⟩

/-- C9 counterexample: the result object is constructed at spawn time
(source line 129) with the exit status unset and empty streams, and the
value `wait` returns differs from it — `exit_status`, `duration`, `stdout`
are all written after construction, refuting "constructed exactly once, at
the end of the wait protocol, and never mutated". -/
theorem cmdresult_mutated_counterexample :
    (SubProcess.wait childExit0 drainersHi "c9" (some 5)).1 =
      Except.ok ⟨"c9", some 0, ['h', 'i', '\n'], [], 1⟩ ∧
    (⟨"c9", some 0, ['h', 'i', '\n'], [], 1⟩ : CmdResult) ≠ CmdResult.init "c9" :=
  ⟨rfl, by decide⟩

/-- C9 amended: the `CmdResult` is constructed exactly once, at spawn time,
with only the command filled in; `wait` then writes its `exit_status` and
`duration` fields and `cleanup` writes `stdout` and `stderr` from the
drained buffers before the object is returned; `command` is never
changed. -/
theorem cmdresult_field_provenance (c : Child) (d : Drainers) (cmd : String)
    (timeout : Option Int) (r : CmdResult)
    (h : (SubProcess.wait c d cmd timeout).1 = Except.ok r) :
    r.command = (CmdResult.init cmd).command ∧
    r.exit_status = (waitProto c timeout).exit_status ∧
    r.duration = (waitProto c timeout).clock ∧
    r.stdout = d.stdout_content ∧ r.stderr = d.stderr_content := by
  simp only [SubProcess.wait, SubProcess.cleanup] at h
  split_ifs at h with h1 h2 h3
  injection h with h
  rw [← h]
  exact ⟨rfl, rfl, rfl, rfl, rfl⟩

/-- Witness for C9 amended, at a concrete child exiting with status 1. -/
theorem cmdresult_field_provenance_witness :
    (SubProcess.wait childExit1 drainersHi "w9" (some 4)).1 =
      Except.ok ⟨"w9", some 1, ['h', 'i', '\n'], [], 1⟩ ∧
    ((⟨"w9", some 1, ['h', 'i', '\n'], [], 1⟩ : CmdResult).command =
        (CmdResult.init "w9").command ∧
      (⟨"w9", some 1, ['h', 'i', '\n'], [], 1⟩ : CmdResult).exit_status =
        (waitProto childExit1 (some 4)).exit_status ∧
      (⟨"w9", some 1, ['h', 'i', '\n'], [], 1⟩ : CmdResult).duration =
        (waitProto childExit1 (some 4)).clock ∧
      (⟨"w9", some 1, ['h', 'i', '\n'], [], 1⟩ : CmdResult).stdout = drainersHi.stdout_content ∧
      (⟨"w9", some 1, ['h', 'i', '\n'], [], 1⟩ : CmdResult).stderr = drainersHi.stderr_content) :=
  ⟨rfl, cmdresult_field_provenance childExit1 drainersHi "w9" (some 4)
    ⟨"w9", some 1, ['h', 'i', '\n'], [], 1⟩ rfl⟩

/-- C1: `run` executes the wait protocol; when the resulting exit status is
non-zero and `ignore_status` is false it raises the command-execution
failure carrying the full result, and in every other case (status zero, or
`ignore_status` true) it returns the result normally. -/
theorem run_failure_policy (c : Child) (d : Drainers) (cmd : String)
    (timeout : Option Int) (verbose ignore_status : Bool) (r : CmdResult)
    (hw : (SubProcess.wait c d cmd timeout).1 = Except.ok r) :
    (r.exit_status ≠ some 0 ∧ ignore_status = false →
      run c d cmd timeout verbose ignore_status = Except.error (RunErr.cmdError cmd r)) ∧
    (r.exit_status = some 0 ∨ ignore_status = true →
      run c d cmd timeout verbose ignore_status = Except.ok r) := by
  have hrun : run c d cmd timeout verbose ignore_status =
      (if r.exit_status ≠ some 0 ∧ ignore_status = false then
        Except.error (RunErr.cmdError cmd r) else Except.ok r) := by
    rw [run, hw]
  constructor
  · intro h
    rw [hrun, if_pos h]
  · intro h
    rw [hrun, if_neg ?_]
    rintro ⟨h1, h2⟩
    rcases h with h | h
    · exact h1 h
    · rw [h] at h2; cases h2

/-- Witness for C1: scenario C — `"false"` (exit status 1) with
`ignore_status=true` returns normally. -/
theorem run_failure_policy_witness :
    (SubProcess.wait childExit1 drainersDone "w1" (some 5)).1 =
      Except.ok ⟨"w1", some 1, [], [], 1⟩ ∧
    ((⟨"w1", some 1, [], [], 1⟩ : CmdResult).exit_status = some 0 ∨ true = true) ∧
    run childExit1 drainersDone "w1" (some 5) true true =
      Except.ok ⟨"w1", some 1, [], [], 1⟩ :=
  ⟨rfl, Or.inr rfl,
   (run_failure_policy childExit1 drainersDone "w1" (some 5) true true
      ⟨"w1", some 1, [], [], 1⟩ rfl).2 (Or.inr rfl)⟩

/-- C6: `system` and `system_output` are pure projections of `run` on the
same arguments — the exit status and the captured stdout respectively — and
propagate exactly the failures `run` raises. -/
theorem system_projections (c : Child) (d : Drainers) (cmd : String)
    (timeout : Option Int) (verbose ignore_status : Bool) :
    (∀ r, run c d cmd timeout verbose ignore_status = Except.ok r →
      system c d cmd timeout verbose ignore_status = Except.ok r.exit_status ∧
      system_output c d cmd timeout verbose ignore_status = Except.ok r.stdout) ∧
    (∀ e, run c d cmd timeout verbose ignore_status = Except.error e →
      system c d cmd timeout verbose ignore_status = Except.error e ∧
      system_output c d cmd timeout verbose ignore_status = Except.error e) := by
  constructor
  · intro r h
    exact ⟨by rw [system, h], by rw [system_output, h]⟩
  · intro e h
    exact ⟨by rw [system, h], by rw [system_output, h]⟩

/-- Witness for C6 at a concrete successful run. -/
theorem system_projections_witness :
    run childExit0 drainersHi "w6" (some 3) true false =
      Except.ok ⟨"w6", some 0, ['h', 'i', '\n'], [], 1⟩ ∧
    system childExit0 drainersHi "w6" (some 3) true false = Except.ok (some 0) ∧
    system_output childExit0 drainersHi "w6" (some 3) true false =
      Except.ok ['h', 'i', '\n'] :=
  ⟨rfl,
   ((system_projections childExit0 drainersHi "w6" (some 3) true false).1
      ⟨"w6", some 0, ['h', 'i', '\n'], [], 1⟩ rfl).1,
   ((system_projections childExit0 drainersHi "w6" (some 3) true false).1
      ⟨"w6", some 0, ['h', 'i', '\n'], [], 1⟩ rfl).2⟩

/-! ## The escalation sequence: grace window and signal ordering -/

theorem pollLoop_never (c : Child) (hne : ∀ h, c.pollR h = none) :
    ∀ (fuel : Nat) (hist : List Ev) (clk : Nat),
      pollLoop c fuel hist clk =
        (hist ++ List.replicate fuel (Ev.poll none), none, clk + fuel) := by
  intro fuel
  induction fuel with
  | zero => intro hist clk; simp [pollLoop]
  | succ n ih =>
    intro hist clk
    rw [show pollLoop c (Nat.succ n) hist clk =
        (match c.pollR hist with
         | some s => (hist ++ [Ev.poll (some s)], some s, clk + 1)
         | none => pollLoop c n (hist ++ [Ev.poll none]) (clk + 1)) from rfl]
    rw [hne hist]
    show pollLoop c n (hist ++ [Ev.poll none]) (clk + 1) = _
    rw [ih]
    simp [List.replicate_succ, List.append_assoc]
    omega

theorem pollLoop_shape (c : Child) :
    ∀ (fuel : Nat) (hist : List Ev) (clk : Nat),
      ∃ evs : List Ev,
        (pollLoop c fuel hist clk).1 = hist ++ evs ∧
        (∀ e ∈ evs, Ev.isPoll e = true) ∧
        ((pollLoop c fuel hist clk).2.1 = none → ∀ e ∈ evs, e = Ev.poll none) := by
  intro fuel
  induction fuel with
  | zero =>
    intro hist clk
    exact ⟨[], by simp [pollLoop], by simp, by simp⟩
  | succ n ih =>
    intro hist clk
    have hunf : pollLoop c (Nat.succ n) hist clk =
        (match c.pollR hist with
         | some s => (hist ++ [Ev.poll (some s)], some s, clk + 1)
         | none => pollLoop c n (hist ++ [Ev.poll none]) (clk + 1)) := rfl
    cases hr : c.pollR hist with
    | some s =>
      rw [hunf, hr]
      refine ⟨[Ev.poll (some s)], rfl, ?_, ?_⟩
      · intro e he
        rcases List.mem_singleton.mp he with rfl
        rfl
      · intro hcon
        exact absurd hcon (by simp)
    | none =>
      rw [hunf, hr]
      rcases ih (hist ++ [Ev.poll none]) (clk + 1) with ⟨evs, h1, h2, h3⟩
      refine ⟨Ev.poll none :: evs, ?_, ?_, ?_⟩
      · show (pollLoop c n (hist ++ [Ev.poll none]) (clk + 1)).1 = _
        rw [h1, List.append_assoc]
        rfl
      · intro e he
        rcases List.mem_cons.mp he with rfl | he
        · rfl
        · exact h2 e he
      · intro hn e he
        have hn2 : (pollLoop c n (hist ++ [Ev.poll none]) (clk + 1)).2.1 = none := hn
        rcases List.mem_cons.mp he with rfl | he
        · rfl
        · exact h3 hn2 e he

theorem escalate_cases (c : Child) (hist : List Ev) (grace clk : Nat) :
    (∃ evs : List Ev, (∀ e ∈ evs, Ev.isPoll e = true) ∧
      (escalate c hist grace clk).1 = hist ++ Ev.term :: evs ∧
      Ev.kill ∉ Ev.term :: evs) ∨
    (∃ evs : List Ev, (∀ e ∈ evs, e = Ev.poll none) ∧
      (escalate c hist grace clk).1 =
        hist ++ Ev.term :: (evs ++ [Ev.kill, Ev.poll ((escalate c hist grace clk).2.1)])) := by
  rcases pollLoop_shape c grace (hist ++ [Ev.term]) clk with ⟨evs, h1, h2, h3⟩
  cases hp : (pollLoop c grace (hist ++ [Ev.term]) clk).2.1 with
  | some s =>
    left
    have hesc : escalate c hist grace clk =
        ((pollLoop c grace (hist ++ [Ev.term]) clk).1, some s,
         (pollLoop c grace (hist ++ [Ev.term]) clk).2.2) := by
      simp only [escalate]
      rw [hp]
    refine ⟨evs, h2, ?_, ?_⟩
    · rw [hesc]
      show (pollLoop c grace (hist ++ [Ev.term]) clk).1 = _
      rw [h1, List.append_assoc]
      rfl
    · intro hmem
      rcases List.mem_cons.mp hmem with hterm | hmem
      · cases hterm
      · have := h2 _ hmem
        simp [Ev.isPoll] at this
  | none =>
    right
    have hesc : escalate c hist grace clk =
        ((pollLoop c grace (hist ++ [Ev.term]) clk).1 ++ [Ev.kill] ++
           [Ev.poll (c.pollR ((pollLoop c grace (hist ++ [Ev.term]) clk).1 ++ [Ev.kill]))],
         c.pollR ((pollLoop c grace (hist ++ [Ev.term]) clk).1 ++ [Ev.kill]),
         (pollLoop c grace (hist ++ [Ev.term]) clk).2.2) := by
      simp only [escalate]
      rw [hp]
    refine ⟨evs, h3 hp, ?_⟩
    rw [hesc]
    show (pollLoop c grace (hist ++ [Ev.term]) clk).1 ++ [Ev.kill] ++ [Ev.poll _] =
      hist ++ Ev.term :: (evs ++ [Ev.kill, Ev.poll _])
    rw [h1]
    simp [List.append_assoc]

/-- C3: whenever the forceful signal is sent, the history decomposes as
polls, then `terminate`, then a grace window of polls that all returned no
status, then `kill` followed by the final status poll: the graceful signal
strictly precedes the forceful one, and `kill` is reached only when no exit
status appeared during the grace window. -/
theorem escalation_order (c : Child) (timeout : Option Int)
    (hk : Ev.kill ∈ (waitProto c timeout).hist) :
    ∃ pre grace : List Ev,
      (waitProto c timeout).hist =
        pre ++ Ev.term :: (grace ++ [Ev.kill, Ev.poll ((waitProto c timeout).exit_status)]) ∧
      (∀ e ∈ pre, Ev.isPoll e = true) ∧
      (∀ e ∈ grace, e = Ev.poll none) := by
  cases timeout with
  | none =>
    rw [show (waitProto c none).hist = [Ev.blockWait c.waitR] from rfl] at hk
    rcases List.mem_singleton.mp hk with h
    cases h
  | some t =>
    by_cases ht : 0 < t
    · cases hp : (pollLoop c t.toNat [] 0).2.1 with
      | some s =>
        have hh : (waitProto c (some t)).hist = (pollLoop c t.toNat [] 0).1 := by
          simp only [waitProto, if_pos ht]
          rw [hp]
        rcases pollLoop_shape c t.toNat [] 0 with ⟨evs, h1, h2, _⟩
        rw [hh, h1, List.nil_append] at hk
        have := h2 _ hk
        simp [Ev.isPoll] at this
      | none =>
        have hh : (waitProto c (some t)).hist =
            (escalate c (pollLoop c t.toNat [] 0).1 (graceWindow (some t)).toNat
              (pollLoop c t.toNat [] 0).2.2).1 := by
          simp only [waitProto, if_pos ht]
          rw [hp]
        have hs : (waitProto c (some t)).exit_status =
            (escalate c (pollLoop c t.toNat [] 0).1 (graceWindow (some t)).toNat
              (pollLoop c t.toNat [] 0).2.2).2.1 := by
          simp only [waitProto, if_pos ht]
          rw [hp]
        rcases pollLoop_shape c t.toNat [] 0 with ⟨evs1, h1, h2, _⟩
        rcases escalate_cases c (pollLoop c t.toNat [] 0).1 (graceWindow (some t)).toNat
            (pollLoop c t.toNat [] 0).2.2 with ⟨evs2, g2, gh, gnk⟩ | ⟨evs2, g2, gh⟩
        · rw [hh, gh] at hk
          rcases List.mem_append.mp hk with hk | hk
          · rw [h1, List.nil_append] at hk
            have := h2 _ hk
            simp [Ev.isPoll] at this
          · exact absurd hk gnk
        · refine ⟨evs1, evs2, ?_, h2, g2⟩
          rw [hh, hs, gh, h1, List.nil_append]
    · have hh : (waitProto c (some t)).hist =
          (escalate c [] (graceWindow (some t)).toNat 0).1 := by
        simp only [waitProto, if_neg ht]
      have hs : (waitProto c (some t)).exit_status =
          (escalate c [] (graceWindow (some t)).toNat 0).2.1 := by
        simp only [waitProto, if_neg ht]
      rcases escalate_cases c [] (graceWindow (some t)).toNat 0 with
          ⟨evs2, g2, gh, gnk⟩ | ⟨evs2, g2, gh⟩
      · rw [hh, gh, List.nil_append] at hk
        exact absurd hk gnk
      · refine ⟨[], evs2, ?_, by simp, g2⟩
        rw [hh, hs, gh, List.nil_append]

/-- Witness for C3: a child that ignores every signal under `timeout=1`
reaches `kill`, and the history decomposes as the theorem states. -/
theorem escalation_order_witness :
    Ev.kill ∈ (waitProto childNever (some 1)).hist ∧
    (∃ pre grace : List Ev,
      (waitProto childNever (some 1)).hist =
        pre ++ Ev.term ::
          (grace ++ [Ev.kill, Ev.poll ((waitProto childNever (some 1)).exit_status)]) ∧
      (∀ e ∈ pre, Ev.isPoll e = true) ∧
      (∀ e ∈ grace, e = Ev.poll none)) :=
  ⟨by decide, escalation_order childNever (some 1) (by decide)⟩

/-- The number of polls the wait protocol performs strictly between
`terminate` and the next non-poll event (`kill`, if any): the observed
length of the grace window in ticks. -/
def gracePollCount (hist : List Ev) : Nat :=
  (((hist.dropWhile (fun e => decide (e ≠ Ev.term))).drop 1).takeWhile Ev.isPoll).length

theorem dropWhile_replicate_poll (l : List Ev) :
    ∀ n : Nat, (List.replicate n (Ev.poll none) ++ l).dropWhile
        (fun e => decide (e ≠ Ev.term)) =
      l.dropWhile (fun e => decide (e ≠ Ev.term)) := by
  intro n
  induction n with
  | zero => rfl
  | succ n ih => simp [List.replicate_succ, List.dropWhile_cons, ih]

theorem takeWhile_replicate_poll_kill (l : List Ev) :
    ∀ n : Nat, ((List.replicate n (Ev.poll none) ++ Ev.kill :: l).takeWhile
        Ev.isPoll).length = n := by
  intro n
  induction n with
  | zero => rfl
  | succ n ih => simp [List.replicate_succ, List.takeWhile_cons, Ev.isPoll, ih]

theorem gracePollCount_eq (n m : Nat) (l : List Ev) :
    gracePollCount (List.replicate n (Ev.poll none) ++
      Ev.term :: (List.replicate m (Ev.poll none) ++ Ev.kill :: l)) = m := by
  rw [gracePollCount, dropWhile_replicate_poll]
  rw [show (Ev.term :: (List.replicate m (Ev.poll none) ++ Ev.kill :: l)).dropWhile
      (fun e => decide (e ≠ Ev.term)) =
    Ev.term :: (List.replicate m (Ev.poll none) ++ Ev.kill :: l) from by
      rw [List.dropWhile_cons, if_neg (by decide)]]
  rw [List.drop_one, List.tail_cons]
  exact takeWhile_replicate_poll_kill l m

/-- C2 counterexample: with `timeout=3` and a child that never reports a
status, the grace window between `terminate` and `kill` spans 3 polling
ticks, not the fixed 1 second the claim states for positive timeouts. -/
theorem grace_window_counterexample :
    gracePollCount (waitProto childNever (some 3)).hist = 3 ∧ (3 : Nat) ≠ 1 := by
  constructor
  · decide
  · decide

/-- C2 amended: for a positive timeout the grace window between
`terminate()` and `kill()` equals the original timeout value — the
variable is left unchanged by the `if timeout > 0` branch — and it is 1
second exactly when the timeout was ≤ 0 (the `else: timeout = 1`
reassignment), despite the source comment saying it should be 1 second. -/
theorem grace_window_amended (t : Int) (ht : 0 < t) (c : Child)
    (hne : ∀ h, c.pollR h = none) :
    gracePollCount (waitProto c (some t)).hist = t.toNat ∧
    graceWindow (some t) = t ∧
    (∀ t2 : Int, t2 ≤ 0 → graceWindow (some t2) = 1) := by
  have hgw : graceWindow (some t) = t := by rw [graceWindow, if_pos ht]
  refine ⟨?_, hgw, ?_⟩
  · have hfinal : (waitProto c (some t)).hist =
        List.replicate t.toNat (Ev.poll none) ++ Ev.term ::
          (List.replicate t.toNat (Ev.poll none) ++ Ev.kill :: [Ev.poll none]) := by
      simp only [waitProto, if_pos ht, escalate, pollLoop_never c hne, hne, hgw]
      simp [List.append_assoc]
    rw [hfinal]
    exact gracePollCount_eq t.toNat t.toNat [Ev.poll none]
  · intro t2 ht2
    rw [graceWindow, if_neg (by omega)]

/-- Witness for C2 amended, with timeout 2 and a signal-proof child. -/
theorem grace_window_amended_witness :
    (0 : Int) < 2 ∧
    gracePollCount (waitProto childNever (some 2)).hist = Int.toNat 2 ∧
    graceWindow (some 2) = 2 :=
  ⟨by decide, (grace_window_amended 2 (by decide) childNever (fun _ => rfl)).1,
   (grace_window_amended 2 (by decide) childNever (fun _ => rfl)).2.1⟩

end Avocado
